import Mathlib

/-!
Verification model of the ACI semantic App/Function catalog store
(`backend/aci/common/db/crud/apps.py`, `backend/aci/common/db/crud/functions.py`,
`backend/aci/common/utils.py`).

The relational store is modelled as an in-memory list of rows kept in the
store's stable (insertion) order.  Building a SQLAlchemy statement is pure and
cannot raise a database error; the database "column ... does not exist" error
surfaces when a statement that references the optional ownership column
(`api_key_id`) is executed against a schema that does not have it.  That schema
condition is carried explicitly in the catalog state.  SQL NULL comparison
semantics are preserved: a filter `api_key_id == <uuid>` is not satisfied by a
row whose `api_key_id` is NULL, and `ORDER BY <boolean> DESC` puts rows for
which the boolean is true first while keeping the stable row order among ties.

The pgvector `cosine_distance` operator is third-party library code, so it is
taken as an explicit function parameter; the ranking theorems hold for every
scorer.
-/

namespace Aci

/-- Row identifiers and API-key identifiers (UUIDs in the source) are modelled
as natural numbers; only equality of identifiers matters to the code. -/
abbrev Uuid := Nat

/-- Visibility enum from `aci.common.enums`. -/
inductive Visibility where
  | PUBLIC
  | PRIVATE
deriving DecidableEq

/-- Errors the modelled store operations can surface to the caller:
the database error whose message contains "column <table>.api_key_id does not
exist", SQLAlchemy's `MultipleResultsFound` from `scalar_one_or_none`, Python's
`IndexError`, and `ValueError` raised by the CRUD code itself. -/
inductive PyError where
  | columnDoesNotExist (table : String)
  | multipleResultsFound
  | indexError
  | valueError (msg : String)
deriving DecidableEq

deriving instance DecidableEq for Except

/-- Modelled from the spec: App row of `sql_models.py` (the module is not in
src/).  Fields are the ones named in spec section 3: identity fields, the
visibility/active flags, the nullable ownership column `api_key_id`, and the
embedding vector (vector components modelled as rationals). -/
structure App where
  id : Uuid
  name : String
  display_name : String
  provider : String
  version : String
  description : String
  logo : Option String
  categories : List String
  visibility : Visibility
  active : Bool
  embedding : List Rat
  api_key_id : Option Uuid
deriving DecidableEq

/-- Modelled from the spec: Function row of `sql_models.py` (the module is not
in src/): identity, owning `app_id`, independent visibility/active flags, the
nullable ownership column and the embedding vector. -/
structure Function where
  id : Uuid
  name : String
  app_id : Uuid
  description : String
  visibility : Visibility
  active : Bool
  embedding : List Rat
  api_key_id : Option Uuid
deriving DecidableEq

/-- Catalog state: the two tables in stable row order, the schema-capability
flags for the forward-compatible ownership columns (spec section 6: "nullable
owner-reference columns added by a forward-compatible migration"), and the
configured platform fallback key `LYZR_API_KEY_ID_DB` read from the
environment by the source. -/
structure Catalog where
  apps : List App
  functions : List Function
  apps_has_api_key_id : Bool
  functions_has_api_key_id : Bool
  LYZR_API_KEY_ID_DB : Uuid
deriving DecidableEq

/-! ### Stable sorting, modelling SQL ORDER BY over a stable base order -/

/-- Insert `x` into `l` before the first element whose key is not smaller,
so that among equal keys earlier rows stay earlier. -/
def insertByKey {α β : Type} [LinearOrder β] (key : α → β) (x : α) : List α → List α
  | [] => [x]
  | y :: ys => if key x ≤ key y then x :: y :: ys else y :: insertByKey key x ys

/-- Stable insertion sort by a key: models ORDER BY over the stable row
order. -/
def sortByKey {α β : Type} [LinearOrder β] (key : α → β) : List α → List α
  | [] => []
  | x :: xs => insertByKey key x (sortByKey key xs)

/-! ### `aci.common.utils` -/

/-- Character-level scan for the segment of a name before the first `__`
occurrence: Python `split` cuts at each non-overlapping occurrence of the
separator scanning left to right, so element 0 of `name.split("__")` is
exactly the longest prefix containing no `__`. -/
def parse_app_name_aux : List Char → List Char
  | [] => []
  | [c] => [c]
  | c1 :: c2 :: cs =>
    if c1 = '_' ∧ c2 = '_' then []
    else c1 :: parse_app_name_aux (c2 :: cs)

/-- Source `utils.parse_app_name_from_function_name`: the app name is
element 0 of `function_name.split("__")`, the segment before the first `__`
delimiter (the whole name when the delimiter does not occur). -/
def parse_app_name_from_function_name (function_name : String) : String :=
  String.mk (parse_app_name_aux function_name.data)

/-! ### `aci.common.db.crud.apps` -/

/-- Modelled from the spec: `AppUpsert` (the pydantic schema module is not in
src/).  Each field is optional; `none` means the field was not provided in the
upsert payload.  For the nullable `logo` column, `some none` is an explicitly
null value, distinct from not provided. -/
structure AppUpsert where
  name : Option String := none
  display_name : Option String := none
  provider : Option String := none
  version : Option String := none
  description : Option String := none
  logo : Option (Option String) := none
  categories : Option (List String) := none
  visibility : Option Visibility := none
  active : Option Bool := none
deriving DecidableEq

/-- One field/value pair of a pydantic `model_dump` of an `AppUpsert`. -/
inductive AppFieldValue where
  | name (v : String)
  | display_name (v : String)
  | provider (v : String)
  | version (v : String)
  | description (v : String)
  | logo (v : Option String)
  | categories (v : List String)
  | visibility (v : Visibility)
  | active (v : Bool)
deriving DecidableEq

/-- Pydantic `model_dump(mode="json", exclude_unset=True)`: the dump contains
exactly the fields that were explicitly set, with their values (an explicitly
null value is kept in the dump). -/
def AppUpsert.model_dump_exclude_unset (u : AppUpsert) : List AppFieldValue :=
  (match u.name with | none => [] | some v => [.name v]) ++
  (match u.display_name with | none => [] | some v => [.display_name v]) ++
  (match u.provider with | none => [] | some v => [.provider v]) ++
  (match u.version with | none => [] | some v => [.version v]) ++
  (match u.description with | none => [] | some v => [.description v]) ++
  (match u.logo with | none => [] | some v => [.logo v]) ++
  (match u.categories with | none => [] | some v => [.categories v]) ++
  (match u.visibility with | none => [] | some v => [.visibility v]) ++
  (match u.active with | none => [] | some v => [.active v])

/-- Python `setattr(app, field, value)` for one dumped field. -/
def App.setattr (app : App) : AppFieldValue → App
  | .name v => { app with name := v }
  | .display_name v => { app with display_name := v }
  | .provider v => { app with provider := v }
  | .version v => { app with version := v }
  | .description v => { app with description := v }
  | .logo v => { app with logo := v }
  | .categories v => { app with categories := v }
  | .visibility v => { app with visibility := v }
  | .active v => { app with active := v }

/-- Source `update_app`: dump the explicitly-set fields of the upsert, apply
each with `setattr`, then overwrite the embedding only when a new embedding is
passed. -/
def update_app (app : App) (app_upsert : AppUpsert)
    (app_embedding : Option (List Rat)) : App :=
  let app := (app_upsert.model_dump_exclude_unset).foldl App.setattr app
  match app_embedding with
  | none => app
  | some e => { app with embedding := e }

/-- Source `get_app`: filter by name, then optionally by active and public;
when an `api_key_id` is supplied, keep only rows owned by that key or by
`LYZR_API_KEY_ID_DB` (a NULL-owned row satisfies neither equality), order so
that rows owned by the caller sort first, and take the first row.  The
function has no handler for the ownership column being absent, so in that
case the ownership filter's execution error reaches the caller. -/
def get_app (cat : Catalog) (app_name : String)
    (public_only : Bool) (active_only : Bool)
    (api_key_id : Option Uuid := none) : Except PyError (Option App) :=
  let rows := cat.apps.filter (fun a => a.name == app_name)
  let rows := if active_only then rows.filter (fun a => a.active) else rows
  let rows := if public_only then
      rows.filter (fun a => a.visibility == Visibility.PUBLIC)
    else rows
  match api_key_id with
  | none => .ok rows.head?
  | some k =>
    if !cat.apps_has_api_key_id then
      .error (.columnDoesNotExist ("apps"))
    else
      let rows := rows.filter (fun a =>
        a.api_key_id == some k || a.api_key_id == some cat.LYZR_API_KEY_ID_DB)
      -- ORDER BY (api_key_id = k) DESC: caller-owned rows first, stable ties
      .ok (sortByKey (fun a => if a.api_key_id == some k then 0 else 1) rows).head?

/-- Source `get_apps`: compose the public/active/name filters, then the
ownership filter.  The try/except in the source wraps only the in-memory
construction of the filter, which cannot raise the database error; the error
surfaces when the statement is executed, outside the except, so it propagates
whenever the statement references the missing ownership column. -/
def get_apps (cat : Catalog) (public_only : Bool) (active_only : Bool)
    (app_names : Option (List String)) (limit : Option Nat) (offset : Option Nat)
    (api_key_id : Option Uuid := none) : Except PyError (List App) :=
  let rows := if public_only then
      cat.apps.filter (fun a => a.visibility == Visibility.PUBLIC)
    else cat.apps
  let rows := if active_only then rows.filter (fun a => a.active) else rows
  let rows := match app_names with
    | none => rows
    | some ns => rows.filter (fun a => ns.contains a.name)
  let rows := match api_key_id with
    | none => rows
    | some k => rows.filter (fun a =>
        a.api_key_id == some k || a.api_key_id == some cat.LYZR_API_KEY_ID_DB)
  let rows := match offset with | none => rows | some o => rows.drop o
  let rows := match limit with | none => rows | some l => rows.take l
  if api_key_id.isSome && !cat.apps_has_api_key_id then
    .error (.columnDoesNotExist ("apps"))
  else
    .ok rows

/-- Filter pipeline of source `search_apps`: public, active, names, category
overlap, in that order. -/
def search_apps_filtered (cat : Catalog) (public_only : Bool) (active_only : Bool)
    (app_names : Option (List String)) (categories : Option (List String)) :
    List App :=
  let rows := if public_only then
      cat.apps.filter (fun a => a.visibility == Visibility.PUBLIC)
    else cat.apps
  let rows := if active_only then rows.filter (fun a => a.active) else rows
  let rows := match app_names with
    | none => rows
    | some ns => rows.filter (fun a => ns.contains a.name)
  match categories with
  | none => rows
  | some cs => rows.filter (fun a => a.categories.any (fun c => cs.contains c))

/-- Source `search_apps`: apply the filters; when an intent embedding is
supplied, add a `cosine_distance` score column, order ascending by it (stable
among ties), paginate and return `(app, some score)` pairs; otherwise paginate
the default order and return `(app, none)` pairs.  The pgvector
`cosine_distance` operator is library code and is passed as a parameter. -/
def search_apps (cat : Catalog) (public_only : Bool) (active_only : Bool)
    (app_names : Option (List String)) (categories : Option (List String))
    (intent_embedding : Option (List Rat)) (limit : Nat) (offset : Nat)
    (cosine_distance : List Rat → List Rat → Rat) :
    List (App × Option Rat) :=
  let rows := search_apps_filtered cat public_only active_only app_names categories
  match intent_embedding with
  | some v =>
    let scored := rows.map (fun a => (a, cosine_distance a.embedding v))
    let ranked := sortByKey (fun p => p.2) scored
    ((ranked.drop offset).take limit).map (fun p => (p.1, some p.2))
  | none =>
    ((rows.drop offset).take limit).map (fun a => (a, none))

/-- Source `get_apps_by_api_key_id`: here the try wraps the execution too, so
when the ownership column is missing the database error is caught, a warning
is logged and the empty list is returned. -/
def get_apps_by_api_key_id (cat : Catalog) (api_key_id : Uuid) :
    Except PyError (List App) :=
  if !cat.apps_has_api_key_id then
    .ok []
  else
    .ok (cat.apps.filter (fun a => a.api_key_id == some api_key_id))

/-- SQLAlchemy `scalar_one_or_none` over the rows a statement returned. -/
def scalar_one_or_none {α : Type} : List α → Except PyError (Option α)
  | [] => .ok none
  | [a] => .ok (some a)
  | _ :: _ :: _ => .error .multipleResultsFound

/-- Source `get_app_by_name_and_api_key_id`: filter by name and owner
(`api_key_id == None` renders as IS NULL, so an `Option` equality models both
cases), take the unique row or `None`.  The try wraps the execution, so the
missing-column error is caught and `None` returned; `MultipleResultsFound`
does not match the caught message and is re-raised. -/
def get_app_by_name_and_api_key_id (cat : Catalog) (app_name : String)
    (api_key_id : Option Uuid) : Except PyError (Option App) :=
  if !cat.apps_has_api_key_id then
    .ok none
  else
    scalar_one_or_none (cat.apps.filter (fun a =>
      a.name == app_name && a.api_key_id == api_key_id))

/-- Source `delete_app_by_id`: fetch the unique row with the given id owned by
the given key, delete it and return true; return false when there is none, or
when the ownership column is missing (that error is caught inside the try). -/
def delete_app_by_id (cat : Catalog) (app_id : Uuid) (api_key_id : Uuid) :
    Except PyError (Bool × Catalog) :=
  if !cat.apps_has_api_key_id then
    .ok (false, cat)
  else
    match scalar_one_or_none (cat.apps.filter (fun a =>
        a.id == app_id && a.api_key_id == some api_key_id)) with
    | .error e => .error e
    | .ok none => .ok (false, cat)
    | .ok (some a) => .ok (true, { cat with apps := cat.apps.erase a })

/-! ### `aci.common.db.crud.functions` -/

/-- Modelled from the spec: `FunctionUpsert` (the pydantic schema module is
not in src/); the fields of the function row the caller supplies.  Creation
dumps it with `exclude_none`, so the modelled fields are all present. -/
structure FunctionUpsert where
  name : String
  description : String
  visibility : Visibility
  active : Bool
deriving DecidableEq

/-- SQL inner join `functions JOIN apps ON functions.app_id = apps.id`,
in the stable row order of the functions table. -/
def joinedFunctionApp (cat : Catalog) : List (Function × App) :=
  cat.functions.flatMap (fun f =>
    (cat.apps.filter (fun a => f.app_id == a.id)).map (fun a => (f, a)))

/-- Loop body of source `create_functions`: for the i-th upsert, parse the app
name from the function name, resolve the app by name and owner key, raise
`ValueError` when it does not resolve, otherwise build the new row from the
dumped upsert, the i-th embedding (`functions_embeddings[i]`, an `IndexError`
when the list is shorter) and the owner key, and stage it with
`db_session.add`.  Row ids are generated by the storage engine and no claim
depends on them, so staged rows get id 0. -/
def create_functions_loop (cat : Catalog) (api_key_id : Option Uuid) :
    List FunctionUpsert → List (List Rat) → Except PyError (List Function)
  | [], _ => .ok []
  | u :: rest, embs =>
    let app_name := parse_app_name_from_function_name u.name
    match get_app_by_name_and_api_key_id cat app_name api_key_id with
    | .error e => .error e
    | .ok none =>
      .error (.valueError ("App=" ++ app_name ++ " does not exist for function=" ++ u.name))
    | .ok (some app) =>
      match embs with
      | [] => .error .indexError
      | e :: embsRest =>
        match create_functions_loop cat api_key_id rest embsRest with
        | .error err => .error err
        | .ok fns =>
          .ok ({ id := 0, name := u.name, app_id := app.id,
                 description := u.description, visibility := u.visibility,
                 active := u.active, embedding := e,
                 api_key_id := api_key_id } :: fns)

/-- Source `create_functions`: run the loop; rows are only staged in the
session during the loop and `db_session.flush()` runs after it, so on success
the staged rows are appended to the functions table, and when the loop raises
the exception propagates before the flush and the caller's rollback discards
the staged rows: the persisted table is unchanged.  The result pairs the
call's outcome with the persisted functions table. -/
def create_functions (cat : Catalog) (functions_upsert : List FunctionUpsert)
    (functions_embeddings : List (List Rat)) (api_key_id : Option Uuid := none) :
    Except PyError (List Function) × List Function :=
  match create_functions_loop cat api_key_id functions_upsert functions_embeddings with
  | .ok fns => (.ok fns, cat.functions ++ fns)
  | .error e => (.error e, cat.functions)

/-- Source `search_functions`: join functions with their app, filter both
activation flags when `active_only`, both visibility flags when `public_only`,
then the name filters, then (by default) exclude rows owned by any API key,
optionally order by the pgvector cosine distance of the function embedding to
the intent (stable among ties), paginate, and return the function rows. -/
def search_functions (cat : Catalog) (public_only : Bool) (active_only : Bool)
    (app_names : Option (List String)) (function_names : Option (List String))
    (intent_embedding : Option (List Rat)) (limit : Nat) (offset : Nat)
    (cosine_distance : List Rat → List Rat → Rat)
    (exclude_api_key_owned : Bool := true) : List Function :=
  let rows := joinedFunctionApp cat
  let rows := if active_only then
      (rows.filter (fun p => p.2.active)).filter (fun p => p.1.active)
    else rows
  let rows := if public_only then
      (rows.filter (fun p => p.2.visibility == Visibility.PUBLIC)).filter
        (fun p => p.1.visibility == Visibility.PUBLIC)
    else rows
  let rows := match function_names with
    | none => rows
    | some ns => rows.filter (fun p => ns.contains p.1.name)
  let rows := match app_names with
    | none => rows
    | some ns => rows.filter (fun p => ns.contains p.2.name)
  let rows := if exclude_api_key_owned then
      rows.filter (fun p => p.1.api_key_id == none)
    else rows
  let rows := match intent_embedding with
    | none => rows
    | some v => sortByKey (fun p => cosine_distance p.1.embedding v) rows
  ((rows.drop offset).take limit).map (fun p => p.1)

/-- Source `get_functions`: join functions with their app, filter by app
names, both visibility flags when `public_only`, both activation flags when
`active_only`, order by function name, paginate. -/
def get_functions (cat : Catalog) (public_only : Bool) (active_only : Bool)
    (app_names : Option (List String)) (limit : Nat) (offset : Nat) :
    List Function :=
  let rows := joinedFunctionApp cat
  let rows := match app_names with
    | none => rows
    | some ns => rows.filter (fun p => ns.contains p.2.name)
  let rows := if public_only then
      (rows.filter (fun p => p.2.visibility == Visibility.PUBLIC)).filter
        (fun p => p.1.visibility == Visibility.PUBLIC)
    else rows
  let rows := if active_only then
      (rows.filter (fun p => p.2.active)).filter (fun p => p.1.active)
    else rows
  let rows := sortByKey (fun p => p.1.name) rows
  ((rows.drop offset).take limit).map (fun p => p.1)

/-- Candidate fetch of source `get_function`: all rows whose name matches,
after the optional activation/visibility filters.  When `active_only` is set
the App table is joined explicitly on `app_id`; when only `public_only` is set
the filter references the App table without a join, which the database
evaluates as an implicit cross join (every matching function row is paired
with every public app row). -/
def get_function_candidates (cat : Catalog) (function_name : String)
    (public_only : Bool) (active_only : Bool) : List Function :=
  let named := cat.functions.filter (fun f => f.name == function_name)
  if active_only then
    let pairs := named.flatMap (fun f =>
      (cat.apps.filter (fun a => f.app_id == a.id)).map (fun a => (f, a)))
    let pairs := (pairs.filter (fun p => p.2.active)).filter (fun p => p.1.active)
    let pairs := if public_only then
        (pairs.filter (fun p => p.2.visibility == Visibility.PUBLIC)).filter
          (fun p => p.1.visibility == Visibility.PUBLIC)
      else pairs
    pairs.map (fun p => p.1)
  else if public_only then
    let pairs := named.flatMap (fun f => cat.apps.map (fun a => (f, a)))
    let pairs := (pairs.filter (fun p => p.2.visibility == Visibility.PUBLIC)).filter
      (fun p => p.1.visibility == Visibility.PUBLIC)
    pairs.map (fun p => p.1)
  else
    named

/-- Selection step of source `get_function`, a pure function of the fetched
candidate list: `None` when it is empty; else the first candidate owned by the
supplied key when one is supplied and exists, else the first candidate owned
by `LYZR_API_KEY_ID_DB`, else the first candidate. -/
def select_function_from_matches (functions : List Function) (lyzr : Uuid)
    (api_key_id : Option Uuid) : Option Function :=
  match functions with
  | [] => none
  | _ :: _ =>
    let fromCaller : Option Function := match api_key_id with
      | none => none
      | some k => functions.find? (fun f => f.api_key_id == some k)
    match fromCaller with
    | some f => some f
    | none =>
      match functions.find? (fun f => f.api_key_id == some lyzr) with
      | some f => some f
      | none => functions.head?

/-- Source `get_function`: fetch all name matches under the filters, then
select by the three-tier ownership priority. -/
def get_function (cat : Catalog) (function_name : String)
    (public_only : Bool) (active_only : Bool)
    (api_key_id : Option Uuid := none) : Option Function :=
  select_function_from_matches
    (get_function_candidates cat function_name public_only active_only)
    cat.LYZR_API_KEY_ID_DB api_key_id

/-- Source `delete_function_by_id`: fetch the unique row with the given id
owned by the given key, delete it and return true; return false when there is
none, or when the ownership column is missing (that error is caught inside
the try). -/
def delete_function_by_id (cat : Catalog) (function_id : Uuid)
    (api_key_id : Uuid) : Except PyError (Bool × Catalog) :=
  if !cat.functions_has_api_key_id then
    .ok (false, cat)
  else
    match scalar_one_or_none (cat.functions.filter (fun f =>
        f.id == function_id && f.api_key_id == some api_key_id)) with
    | .error e => .error e
    | .ok none => .ok (false, cat)
    | .ok (some f) => .ok (true, { cat with functions := cat.functions.erase f })

/-! ### Concrete fixtures used by counterexamples and witnesses -/

/-- App row fixture with the fields the retrieval claims look at. -/
def exApp (i : Uuid) (nm : String) (vis : Visibility) (act : Bool)
    (owner : Option Uuid) : App :=
  { id := i, name := nm, display_name := nm, provider := ("prov"),
    version := ("1.0"), description := ("desc"), logo := none, categories := [],
    visibility := vis, active := act, embedding := [], api_key_id := owner }

/-- Function row fixture with the fields the retrieval claims look at. -/
def exFun (i : Uuid) (nm : String) (appId : Uuid) (vis : Visibility)
    (act : Bool) (owner : Option Uuid) : Function :=
  { id := i, name := nm, app_id := appId, description := ("desc"),
    visibility := vis, active := act, embedding := [], api_key_id := owner }

/-- Catalog of the spec's ownership-fallback scenario: three rows named X,
owned by key 1, key 2 and NULL; the platform fallback key is 99 and owns no
row; both ownership columns are present. -/
def catX : Catalog :=
  { apps := [exApp 1 ("X") .PUBLIC true (some 1),
             exApp 2 ("X") .PUBLIC true (some 2),
             exApp 3 ("X") .PUBLIC true none],
    functions := [], apps_has_api_key_id := true,
    functions_has_api_key_id := true, LYZR_API_KEY_ID_DB := 99 }

/-- Catalog with one owned app (id 1, key 5) and one owned function
(id 2, key 5, under that app), both ownership columns present. -/
def catD : Catalog :=
  { apps := [exApp 1 ("A") .PUBLIC true (some 5)],
    functions := [exFun 2 ("A__f") 1 .PUBLIC true (some 5)],
    apps_has_api_key_id := true, functions_has_api_key_id := true,
    LYZR_API_KEY_ID_DB := 99 }

/-- Catalog with three same-named functions owned by key 2, the platform key
99 and NULL, under one public app; platform key 99. -/
def catF : Catalog :=
  { apps := [exApp 10 ("X") .PUBLIC true none],
    functions := [exFun 1 ("X") 10 .PUBLIC true (some 2),
                  exFun 2 ("X") 10 .PUBLIC true (some 99),
                  exFun 3 ("X") 10 .PUBLIC true none],
    apps_has_api_key_id := true, functions_has_api_key_id := true,
    LYZR_API_KEY_ID_DB := 99 }

/-- Catalog with one app named APPA owned by key 5 and no functions. -/
def catA : Catalog :=
  { apps := [exApp 10 ("APPA") .PUBLIC true (some 5)], functions := [],
    apps_has_api_key_id := true, functions_has_api_key_id := true,
    LYZR_API_KEY_ID_DB := 99 }

/-- Function upsert fixture. -/
def exUps (nm : String) : FunctionUpsert :=
  { name := nm, description := ("desc"), visibility := .PUBLIC, active := true }

/-- Catalog with a public and a private app, each owning one public, active
function. -/
def catV : Catalog :=
  { apps := [exApp 1 ("PA") .PUBLIC true none,
             exApp 2 ("PRA") .PRIVATE true none],
    functions := [exFun 10 ("PA__f") 1 .PUBLIC true none,
                  exFun 11 ("PRA__g") 2 .PUBLIC true none],
    apps_has_api_key_id := true, functions_has_api_key_id := true,
    LYZR_API_KEY_ID_DB := 99 }

/-! ### Lemmas about the stable sort and list selection -/

theorem mem_insertByKey {α β : Type} [LinearOrder β] (key : α → β) (x : α)
    (l : List α) (a : α) : a ∈ insertByKey key x l ↔ a = x ∨ a ∈ l := by
  induction l with
  | nil => simp [insertByKey]
  | cons y ys ih =>
    simp only [insertByKey]
    split
    · simp [List.mem_cons]
    · simp only [List.mem_cons, ih]
      tauto

theorem mem_sortByKey {α β : Type} [LinearOrder β] (key : α → β)
    (l : List α) (a : α) : a ∈ sortByKey key l ↔ a ∈ l := by
  induction l with
  | nil => simp [sortByKey]
  | cons x xs ih =>
    simp only [sortByKey, mem_insertByKey, ih, List.mem_cons]

theorem pairwise_insertByKey {α β : Type} [LinearOrder β] (key : α → β) (x : α)
    {l : List α} (h : l.Pairwise (fun a b => key a ≤ key b)) :
    (insertByKey key x l).Pairwise (fun a b => key a ≤ key b) := by
  induction l with
  | nil => simp [insertByKey]
  | cons y ys ih =>
    rcases List.pairwise_cons.1 h with ⟨hy, hys⟩
    simp only [insertByKey]
    split
    next hxy =>
      refine List.pairwise_cons.2 ⟨?_, h⟩
      intro b hb
      rcases List.mem_cons.1 hb with rfl | hb
      · exact hxy
      · exact le_trans hxy (hy b hb)
    next hxy =>
      refine List.pairwise_cons.2 ⟨?_, ih hys⟩
      intro b hb
      rcases (mem_insertByKey key x ys b).1 hb with rfl | hb
      · exact le_of_lt (lt_of_not_le hxy)
      · exact hy b hb

theorem pairwise_sortByKey {α β : Type} [LinearOrder β] (key : α → β)
    (l : List α) :
    (sortByKey key l).Pairwise (fun a b => key a ≤ key b) := by
  induction l with
  | nil => simp [sortByKey]
  | cons x xs ih => exact pairwise_insertByKey key x ih

theorem filter_insertByKey {α β : Type} [LinearOrder β] (key : α → β) (x : α)
    {l : List α} (h : l.Pairwise (fun a b => key a ≤ key b)) (c : β) :
    (insertByKey key x l).filter (fun a => decide (key a = c)) =
      if key x = c then x :: l.filter (fun a => decide (key a = c))
      else l.filter (fun a => decide (key a = c)) := by
  induction l with
  | nil =>
    simp only [insertByKey, List.filter]
    split <;> simp_all
  | cons y ys ih =>
    rcases List.pairwise_cons.1 h with ⟨hy, hys⟩
    simp only [insertByKey]
    split
    next hxy =>
      by_cases hcx : key x = c <;> simp [List.filter_cons, hcx]
    next hxy =>
      have hyx : key y < key x := lt_of_not_le hxy
      by_cases hcx : key x = c
      · have hcy : ¬ key y = c := by
          intro hcy
          exact absurd (hcy.trans hcx.symm) (ne_of_lt hyx)
        simp [List.filter_cons, hcy, ih hys, hcx]
      · simp [List.filter_cons, ih hys, hcx]

theorem filter_sortByKey {α β : Type} [LinearOrder β] (key : α → β)
    (l : List α) (c : β) :
    (sortByKey key l).filter (fun a => decide (key a = c)) =
      l.filter (fun a => decide (key a = c)) := by
  induction l with
  | nil => simp [sortByKey]
  | cons x xs ih =>
    rw [sortByKey, filter_insertByKey key x (pairwise_sortByKey key xs) c]
    by_cases hcx : key x = c <;> simp [List.filter_cons, hcx, ih]

theorem head?_filter_eq_find? {α : Type} (p : α → Bool) (l : List α) :
    (l.filter p).head? = l.find? p := by
  induction l with
  | nil => rfl
  | cons x xs ih =>
    by_cases hx : p x <;> simp [List.filter_cons, List.find?_cons, hx, ih]

/-- Head of the stable sort when an element attains a lower bound of the keys:
the first element of the list attaining it. -/
theorem head?_sortByKey_of_bot {α β : Type} [LinearOrder β] (key : α → β)
    (l : List α) (b : β) (hbot : ∀ a ∈ l, b ≤ key a) (hex : ∃ a ∈ l, key a = b) :
    (sortByKey key l).head? = l.find? (fun a => decide (key a = b)) := by
  have hstab := filter_sortByKey key l b
  rcases hex with ⟨a, hal, hab⟩
  have haf : a ∈ (sortByKey key l).filter (fun x => decide (key x = b)) := by
    rw [hstab]
    exact List.mem_filter.2 ⟨hal, by simp [hab]⟩
  obtain ⟨s, srest, hs⟩ : ∃ s srest, sortByKey key l = s :: srest := by
    cases hsort : sortByKey key l with
    | nil => rw [hsort] at haf; simp at haf
    | cons s srest => exact ⟨s, srest, rfl⟩
  have hsmem : s ∈ l := (mem_sortByKey key l s).1 (hs ▸ List.mem_cons_self s srest)
  have hsle : b ≤ key s := hbot s hsmem
  have hkey : key s = b := by
    rcases List.mem_filter.1 haf with ⟨hamem, hap⟩
    rw [hs] at hamem
    rcases List.mem_cons.1 hamem with rfl | hamem
    · exact of_decide_eq_true hap
    · have hpair := pairwise_sortByKey key l
      rw [hs] at hpair
      have hle := (List.pairwise_cons.1 hpair).1 a hamem
      have : key a = b := of_decide_eq_true hap
      exact le_antisymm (this ▸ hle) hsle
  calc (sortByKey key l).head?
      = ((sortByKey key l).filter (fun x => decide (key x = b))).head? := by
        rw [hs]
        simp [List.filter_cons, hkey]
    _ = (l.filter (fun x => decide (key x = b))).head? := by rw [hstab]
    _ = l.find? (fun x => decide (key x = b)) := head?_filter_eq_find? _ l

/-- Head of the stable sort when every key equals the same value: the sort is
the identity, so the head is the head of the list. -/
theorem sortByKey_eq_self_of_const {α β : Type} [LinearOrder β] (key : α → β)
    (l : List α) (c : β) (hall : ∀ a ∈ l, key a = c) :
    sortByKey key l = l := by
  have h1 : (sortByKey key l).filter (fun a => decide (key a = c)) =
      sortByKey key l :=
    List.filter_eq_self.2 (fun a ha => by
      simp [hall a ((mem_sortByKey key l a).1 ha)])
  have h2 : l.filter (fun a => decide (key a = c)) = l :=
    List.filter_eq_self.2 (fun a ha => by simp [hall a ha])
  rw [← h1, filter_sortByKey, h2]

theorem find?_filter_of_imp {α : Type} (p q : α → Bool) (l : List α)
    (himp : ∀ a, p a = true → q a = true) :
    (l.filter q).find? p = l.find? p := by
  induction l with
  | nil => rfl
  | cons x xs ih =>
    by_cases hq : q x
    · by_cases hp : p x <;> simp [List.filter_cons, List.find?_cons, hq, hp, ih]
    · have hp : ¬ p x = true := fun h => hq (himp x h)
      simp [List.filter_cons, List.find?_cons, hq, hp, ih]

theorem scalar_one_or_none_ok_some {α : Type} {l : List α} {a : α}
    (h : scalar_one_or_none l = .ok (some a)) : l = [a] := by
  match l with
  | [] => simp [scalar_one_or_none] at h
  | [x] =>
    simp [scalar_one_or_none] at h
    rw [h]
  | x :: y :: ys => simp [scalar_one_or_none] at h

theorem filter_eq_singleton_of_unique {α : Type} {l : List α} {p : α → Bool}
    (idf : α → Uuid) (i : Uuid)
    (hnodup : (l.map idf).Nodup) (hid : ∀ x, p x = true → idf x = i)
    {a : α} (ha : a ∈ l) (hpa : p a = true) :
    l.filter p = [a] := by
  induction l with
  | nil => simp at ha
  | cons x xs ih =>
    rw [List.map_cons, List.nodup_cons] at hnodup
    obtain ⟨hx_notin, hnodup_xs⟩ := hnodup
    by_cases hpx : p x = true
    · have hax : a = x := by
        rcases List.mem_cons.1 ha with rfl | hax
        · rfl
        · exact absurd (by
            rw [hid x hpx, ← hid a hpa]
            exact List.mem_map_of_mem idf hax) hx_notin
      subst hax
      rw [List.filter_cons_of_pos hpx]
      have hnil : xs.filter p = [] := by
        rw [List.filter_eq_nil_iff]
        intro b hb hpb
        exact hx_notin (by
          rw [hid a hpx, ← hid b hpb]
          exact List.mem_map_of_mem idf hb)
      rw [hnil]
    · have hax : ¬ a = x := fun hax => hpx (hax ▸ hpa)
      have ha2 : a ∈ xs := by
        rcases List.mem_cons.1 ha with rfl | h2
        · exact absurd rfl hax
        · exact h2
      rw [List.filter_cons_of_neg (by simpa using hpx)]
      exact ih hnodup_xs ha2

/-! ### Claim theorems -/

/-- C1 (counterexample): the store's three-row ownership scenario
`{name: X, owner: 1}`, `{name: X, owner: 2}`, `{name: X, owner: NULL}` with
platform key 99.  `get_app("X", api_key_id=7)` (key 7 owns no row) returns
`None`, not the NULL-owned row: the ownership filter admits only rows owned by
the caller or by `LYZR_API_KEY_ID_DB`, and a NULL owner matches neither.
Likewise, with only a foreign-owned row and no fallback row present,
`get_app` returns `None` rather than the first remaining match. -/
theorem get_app_null_fallback_counterexample :
    get_app catX ("X") false false (some 7) = .ok none ∧
    get_app catX ("X") false false (some 7) ≠
      .ok (some (exApp 3 ("X") .PUBLIC true none)) ∧
    get_app { catX with apps := [exApp 2 ("X") .PUBLIC true (some 2)] }
      ("X") false false (some 7) = .ok none := by
  refine ⟨by decide, by decide, by decide⟩

/-- C1 (amended): with `public_only` and `active_only` false and the ownership
column present, `get_app` restricted to the rows named `app_name` returns the
first row owned by the caller's key when one exists; otherwise the first row
owned by the platform fallback key `LYZR_API_KEY_ID_DB` when one exists;
otherwise `None` (rows with a NULL owner are excluded by the ownership
filter, so there is no further fallback). -/
theorem get_app_ownership_fallback (cat : Catalog) (app_name : String)
    (k : Uuid) (hcol : cat.apps_has_api_key_id = true) :
    (∀ a, (cat.apps.filter (fun x => x.name == app_name)).find?
        (fun x => x.api_key_id == some k) = some a →
      get_app cat app_name false false (some k) = .ok (some a)) ∧
    ((cat.apps.filter (fun x => x.name == app_name)).find?
        (fun x => x.api_key_id == some k) = none →
      ∀ a, (cat.apps.filter (fun x => x.name == app_name)).find?
          (fun x => x.api_key_id == some cat.LYZR_API_KEY_ID_DB) = some a →
        get_app cat app_name false false (some k) = .ok (some a)) ∧
    ((cat.apps.filter (fun x => x.name == app_name)).find?
        (fun x => x.api_key_id == some k) = none →
      (cat.apps.filter (fun x => x.name == app_name)).find?
          (fun x => x.api_key_id == some cat.LYZR_API_KEY_ID_DB) = none →
      get_app cat app_name false false (some k) = .ok none) := by
  set nameMatches := cat.apps.filter (fun x => x.name == app_name) with hm
  have hget : get_app cat app_name false false (some k) =
      .ok (sortByKey (fun a => if a.api_key_id == some k then 0 else 1)
        (nameMatches.filter (fun a =>
          a.api_key_id == some k ||
            a.api_key_id == some cat.LYZR_API_KEY_ID_DB))).head? := by
    simp [get_app, hcol, hm]
  set ownPred : App → Bool := fun a =>
    a.api_key_id == some k || a.api_key_id == some cat.LYZR_API_KEY_ID_DB
    with hop
  set keyFn : App → Nat := fun a => if a.api_key_id == some k then 0 else 1
    with hkf
  refine ⟨?_, ?_, ?_⟩
  · intro a ha
    have hmem : a ∈ nameMatches := List.mem_of_find?_eq_some ha
    have hpa := List.find?_some ha
    have hamem : a ∈ nameMatches.filter ownPred :=
      List.mem_filter.2 ⟨hmem, by simp [hop, hpa]⟩
    have hpa2 : a.api_key_id = some k := by simpa using hpa
    have hkey0 : keyFn a = 0 := by simp [hkf, hpa2]
    rw [hget, head?_sortByKey_of_bot keyFn (nameMatches.filter ownPred) 0
      (fun _ _ => Nat.zero_le _) ⟨a, hamem, hkey0⟩]
    have hpeq : (fun x => decide (keyFn x = 0)) =
        (fun x : App => x.api_key_id == some k) := by
      funext x
      by_cases hx : x.api_key_id = some k <;> simp [hkf, hx]
    rw [hpeq, find?_filter_of_imp _ ownPred nameMatches
      (fun x hx => by simp [hop, hx]), ha]
  · intro hnone a ha
    have hnocaller : ∀ x ∈ nameMatches, ¬ (x.api_key_id == some k) = true :=
      List.find?_eq_none.1 hnone
    have hfeq : nameMatches.filter ownPred =
        nameMatches.filter (fun x => x.api_key_id == some cat.LYZR_API_KEY_ID_DB) := by
      refine List.filter_congr (fun x hx => ?_)
      have hfalse : (x.api_key_id == some k) = false := by
        simpa using hnocaller x hx
      simp [hop, hfalse]
    have hconst : ∀ x ∈ nameMatches.filter ownPred, keyFn x = 1 := by
      intro x hx
      have hxmem := (List.mem_filter.1 hx).1
      have hne : ¬ x.api_key_id = some k := by
        simpa using hnocaller x hxmem
      simp [hkf, hne]
    rw [hget, sortByKey_eq_self_of_const keyFn _ 1 hconst, hfeq,
      head?_filter_eq_find?, ha]
  · intro hnone hnolyzr
    have hnocaller : ∀ x ∈ nameMatches, ¬ (x.api_key_id == some k) = true :=
      List.find?_eq_none.1 hnone
    have hnol : ∀ x ∈ nameMatches,
        ¬ (x.api_key_id == some cat.LYZR_API_KEY_ID_DB) = true :=
      List.find?_eq_none.1 hnolyzr
    have hnil : nameMatches.filter ownPred = [] := by
      rw [List.filter_eq_nil_iff]
      intro x hx
      simp only [hop, Bool.or_eq_true]
      push_neg
      exact ⟨hnocaller x hx, hnol x hx⟩
    rw [hget, hnil]
    rfl

/-- C1 (witness): in the three-row scenario, `get_app("X", api_key_id=1)`
returns the caller's own row, and with platform key 99 owning a row and key 7
owning none, `get_app("X", api_key_id=7)` returns the platform row. -/
theorem get_app_ownership_fallback_witness :
    get_app catX ("X") false false (some 1) =
      .ok (some (exApp 1 ("X") .PUBLIC true (some 1))) ∧
    get_app { catX with apps := catX.apps ++ [exApp 4 ("X") .PUBLIC true (some 99)] }
      ("X") false false (some 7) =
      .ok (some (exApp 4 ("X") .PUBLIC true (some 99))) := by
  constructor
  · exact (get_app_ownership_fallback catX ("X") 1 (by decide)).1
      (exApp 1 ("X") .PUBLIC true (some 1)) (by decide)
  · exact ((get_app_ownership_fallback
      { catX with apps := catX.apps ++ [exApp 4 ("X") .PUBLIC true (some 99)] }
      ("X") 7 (by decide)).2.1) (by decide)
      (exApp 4 ("X") .PUBLIC true (some 99)) (by decide)

/-- C10: whenever `get_app` is called with a supplied `api_key_id` and returns
a row, that row's owner is either the supplied key or the configured platform
fallback key `LYZR_API_KEY_ID_DB`; in particular it is never a row owned by a
different tenant's key and never a row with a NULL owner. -/
theorem get_app_owner_scoping (cat : Catalog) (app_name : String)
    (public_only active_only : Bool) (k : Uuid) (a : App)
    (hret : get_app cat app_name public_only active_only (some k) =
      .ok (some a)) :
    (a.api_key_id = some k ∨ a.api_key_id = some cat.LYZR_API_KEY_ID_DB) ∧
      a.api_key_id ≠ none := by
  have hmain : a.api_key_id = some k ∨
      a.api_key_id = some cat.LYZR_API_KEY_ID_DB := by
    by_cases hcol : cat.apps_has_api_key_id
    · simp only [get_app, hcol, Bool.not_true, Bool.false_eq_true, if_false] at hret
      set rows := cat.apps.filter (fun x => x.name == app_name) with hr
      set rows1 := if active_only then rows.filter (fun x => x.active) else rows
        with hr1
      set rows2 := if public_only then
          rows1.filter (fun x => x.visibility == Visibility.PUBLIC)
        else rows1 with hr2
      set sorted := sortByKey (fun x => if x.api_key_id == some k then 0 else 1)
        (rows2.filter (fun x =>
          x.api_key_id == some k ||
            x.api_key_id == some cat.LYZR_API_KEY_ID_DB)) with hs
      have hhead : sorted.head? = some a := by
        simpa using hret
      have hmem : a ∈ sorted := by
        cases hsor : sorted with
        | nil => rw [hsor] at hhead; simp at hhead
        | cons b bs =>
          rw [hsor] at hhead
          simp only [List.head?_cons, Option.some.injEq] at hhead
          rw [← hhead]
          exact List.mem_cons_self b bs
      have := (List.mem_filter.1 ((mem_sortByKey _ _ a).1 hmem)).2
      rcases Bool.or_eq_true_iff.1 this with h | h
      · exact Or.inl (eq_of_beq h)
      · exact Or.inr (eq_of_beq h)
    · have hcol2 : cat.apps_has_api_key_id = false := by
        simpa using hcol
      simp [get_app, hcol2] at hret
  refine ⟨hmain, ?_⟩
  rcases hmain with h | h <;> simp [h]

/-- C10 (witness): on the three-row scenario with caller key 1, the returned
row is the caller's own, so its owner is the caller key or the platform
key, and it is not NULL-owned. -/
theorem get_app_owner_scoping_witness :
    ((exApp 1 ("X") .PUBLIC true (some 1)).api_key_id = some 1 ∨
      (exApp 1 ("X") .PUBLIC true (some 1)).api_key_id =
        some catX.LYZR_API_KEY_ID_DB) ∧
      (exApp 1 ("X") .PUBLIC true (some 1)).api_key_id ≠ none :=
  get_app_owner_scoping catX ("X") false false 1
    (exApp 1 ("X") .PUBLIC true (some 1)) (by decide)

/-- C5 (code-bug evidence): with the ownership column absent from the apps
table, `get_apps_by_api_key_id` degrades to the empty list as the claim says,
but `get_apps` called with a supplied `api_key_id` surfaces the
column-does-not-exist error to the caller: its try/except wraps only the
in-memory construction of the filter, which cannot raise the database error,
so the documented "Skipping filter." degrade never runs.  With the column
present the same `get_apps` call returns the owner-filtered rows. -/
theorem get_apps_schema_drift_propagates :
    get_apps { catX with apps_has_api_key_id := false } false false none none
        none (some 7) = .error (.columnDoesNotExist ("apps")) ∧
    get_apps_by_api_key_id { catX with apps_has_api_key_id := false } 7 =
      .ok [] ∧
    get_apps catX false false none none none (some 1) =
      .ok [exApp 1 ("X") .PUBLIC true (some 1)] := by
  refine ⟨by decide, by decide, by decide⟩

set_option maxHeartbeats 3200000 in
/-- C7: `update_app` overwrites exactly the explicitly-set fields of the
upsert (an explicitly null `logo` overwrites with null, while an unset one is
untouched); every unset field, the row identity, the ownership column, and —
when no new embedding is passed — the stored embedding all keep their previous
values, and a passed embedding replaces only the embedding. -/
theorem update_app_merge_semantics (app : App) (u : AppUpsert) (e : List Rat) :
    update_app app u none =
      { app with
        name := u.name.getD app.name,
        display_name := u.display_name.getD app.display_name,
        provider := u.provider.getD app.provider,
        version := u.version.getD app.version,
        description := u.description.getD app.description,
        logo := u.logo.getD app.logo,
        categories := u.categories.getD app.categories,
        visibility := u.visibility.getD app.visibility,
        active := u.active.getD app.active } ∧
    update_app app u (some e) = { update_app app u none with embedding := e } ∧
    (update_app app u none).embedding = app.embedding ∧
    (update_app app u none).id = app.id ∧
    (update_app app u none).api_key_id = app.api_key_id := by
  have h1 : update_app app u none =
      { app with
        name := u.name.getD app.name,
        display_name := u.display_name.getD app.display_name,
        provider := u.provider.getD app.provider,
        version := u.version.getD app.version,
        description := u.description.getD app.description,
        logo := u.logo.getD app.logo,
        categories := u.categories.getD app.categories,
        visibility := u.visibility.getD app.visibility,
        active := u.active.getD app.active } := by
    rcases u with ⟨n, dn, pr, ver, d, lg, c, vis, act⟩
    cases n <;> cases dn <;> cases pr <;> cases ver <;> cases d <;> cases lg
      <;> cases c <;> cases vis <;> cases act <;> rfl
  refine ⟨h1, rfl, ?_, ?_, ?_⟩ <;> rw [h1]

/-- C6: when an intent embedding is supplied, `search_apps` returns the
page of the scored, filtered rows stably sorted by ascending cosine distance,
as `(app, some score)` pairs; the sorted scores are pairwise ascending, and
for every distance value the rows attaining it keep their stable store order
(tie-break is never arbitrary); with no intent embedding it returns
`(app, none)` pairs in the default order.  The pgvector distance operator is
library code, so the statement holds for every scorer passed for it. -/
theorem search_apps_cosine_ranking (cat : Catalog)
    (public_only active_only : Bool)
    (app_names categories : Option (List String)) (limit offset : Nat)
    (v : List Rat) (cosine_distance : List Rat → List Rat → Rat) :
    let scored := (search_apps_filtered cat public_only active_only app_names
      categories).map (fun a => (a, cosine_distance a.embedding v))
    let ranked := sortByKey (fun p : App × Rat => p.2) scored
    search_apps cat public_only active_only app_names categories (some v)
        limit offset cosine_distance =
      ((ranked.drop offset).take limit).map (fun p => (p.1, some p.2)) ∧
    ranked.Pairwise (fun p q => p.2 ≤ q.2) ∧
    (∀ c : Rat, ranked.filter (fun p => decide (p.2 = c)) =
      scored.filter (fun p => decide (p.2 = c))) ∧
    search_apps cat public_only active_only app_names categories none
        limit offset cosine_distance =
      (((search_apps_filtered cat public_only active_only app_names
          categories).drop offset).take limit).map (fun a => (a, none)) :=
  ⟨rfl, pairwise_sortByKey _ _, fun c => filter_sortByKey _ _ c, rfl⟩

/-- C8: with row ids unique, `delete_app_by_id` and `delete_function_by_id`
never raise; they return true and erase exactly the row with the given id
owned by the supplied key when such a row exists and the ownership column is
present; in every other case (row absent, row owned by another key, or
ownership column missing) they return false and leave the catalog unchanged;
and a true result always certifies that such a row existed and was erased. -/
theorem delete_by_id_ownership_checked (cat : Catalog) (rid key : Uuid)
    (hA : (cat.apps.map (fun a => a.id)).Nodup)
    (hF : (cat.functions.map (fun f => f.id)).Nodup) :
    (∃ r, delete_app_by_id cat rid key = .ok r) ∧
    (∀ a, a ∈ cat.apps → a.id = rid → a.api_key_id = some key →
      cat.apps_has_api_key_id = true →
      delete_app_by_id cat rid key =
        .ok (true, { cat with apps := cat.apps.erase a })) ∧
    ((¬ ∃ a, a ∈ cat.apps ∧ a.id = rid ∧ a.api_key_id = some key) ∨
        cat.apps_has_api_key_id = false →
      delete_app_by_id cat rid key = .ok (false, cat)) ∧
    (∀ cat2, delete_app_by_id cat rid key = .ok (true, cat2) →
      ∃ a, a ∈ cat.apps ∧ a.id = rid ∧ a.api_key_id = some key ∧
        cat2 = { cat with apps := cat.apps.erase a }) ∧
    (∃ r, delete_function_by_id cat rid key = .ok r) ∧
    (∀ f, f ∈ cat.functions → f.id = rid → f.api_key_id = some key →
      cat.functions_has_api_key_id = true →
      delete_function_by_id cat rid key =
        .ok (true, { cat with functions := cat.functions.erase f })) ∧
    ((¬ ∃ f, f ∈ cat.functions ∧ f.id = rid ∧ f.api_key_id = some key) ∨
        cat.functions_has_api_key_id = false →
      delete_function_by_id cat rid key = .ok (false, cat)) ∧
    (∀ cat2, delete_function_by_id cat rid key = .ok (true, cat2) →
      ∃ f, f ∈ cat.functions ∧ f.id = rid ∧ f.api_key_id = some key ∧
        cat2 = { cat with functions := cat.functions.erase f }) := by
  have hA2 : ∀ a, a ∈ cat.apps → a.id = rid → a.api_key_id = some key →
      cat.apps_has_api_key_id = true →
      delete_app_by_id cat rid key =
        .ok (true, { cat with apps := cat.apps.erase a }) := by
    intro a hmem hid hown hcol
    have hfil : cat.apps.filter
        (fun x => x.id == rid && x.api_key_id == some key) = [a] :=
      filter_eq_singleton_of_unique (fun x => x.id) rid hA
        (fun x hx => by
          simp only [Bool.and_eq_true, beq_iff_eq] at hx
          exact hx.1)
        hmem (by simp [hid, hown])
    simp [delete_app_by_id, hcol, hfil, scalar_one_or_none]
  have hA3 : (¬ ∃ a, a ∈ cat.apps ∧ a.id = rid ∧ a.api_key_id = some key) ∨
      cat.apps_has_api_key_id = false →
      delete_app_by_id cat rid key = .ok (false, cat) := by
    intro h
    rcases h with hno | hcolf
    · by_cases hcol : cat.apps_has_api_key_id
      · have hfil : cat.apps.filter
            (fun x => x.id == rid && x.api_key_id == some key) = [] := by
          rw [List.filter_eq_nil_iff]
          intro x hx hpx
          simp only [Bool.and_eq_true, beq_iff_eq] at hpx
          exact hno ⟨x, hx, hpx.1, hpx.2⟩
        simp [delete_app_by_id, hcol, hfil, scalar_one_or_none]
      · have hcol2 : cat.apps_has_api_key_id = false := by simpa using hcol
        simp [delete_app_by_id, hcol2]
    · simp [delete_app_by_id, hcolf]
  have hA4 : ∀ cat2, delete_app_by_id cat rid key = .ok (true, cat2) →
      ∃ a, a ∈ cat.apps ∧ a.id = rid ∧ a.api_key_id = some key ∧
        cat2 = { cat with apps := cat.apps.erase a } := by
    intro cat2 h
    by_cases hcol : cat.apps_has_api_key_id
    · cases hscal : scalar_one_or_none (cat.apps.filter
          (fun x => x.id == rid && x.api_key_id == some key)) with
      | error e => simp [delete_app_by_id, hcol, hscal] at h
      | ok o =>
        cases o with
        | none => simp [delete_app_by_id, hcol, hscal] at h
        | some a =>
          simp only [delete_app_by_id, hcol, Bool.not_true, hscal,
            Bool.false_eq_true, if_false] at h
          have hfil := scalar_one_or_none_ok_some hscal
          have hamem : a ∈ cat.apps.filter
              (fun x => x.id == rid && x.api_key_id == some key) := by
            rw [hfil]; exact List.mem_cons_self a []
          obtain ⟨hmem, hp⟩ := List.mem_filter.1 hamem
          simp only [Bool.and_eq_true, beq_iff_eq] at hp
          refine ⟨a, hmem, hp.1, hp.2, ?_⟩
          rw [hcol]
          have := h
          simp at this
          exact this.symm
    · have hcol2 : cat.apps_has_api_key_id = false := by simpa using hcol
      simp [delete_app_by_id, hcol2] at h
  have hA1 : ∃ r, delete_app_by_id cat rid key = .ok r := by
    by_cases hcol : cat.apps_has_api_key_id
    · by_cases hex : ∃ a, a ∈ cat.apps ∧ a.id = rid ∧ a.api_key_id = some key
      · obtain ⟨a, hmem, hid, hown⟩ := hex
        exact ⟨_, hA2 a hmem hid hown hcol⟩
      · exact ⟨_, hA3 (Or.inl hex)⟩
    · exact ⟨_, hA3 (Or.inr (by simpa using hcol))⟩
  have hF2 : ∀ f, f ∈ cat.functions → f.id = rid → f.api_key_id = some key →
      cat.functions_has_api_key_id = true →
      delete_function_by_id cat rid key =
        .ok (true, { cat with functions := cat.functions.erase f }) := by
    intro f hmem hid hown hcol
    have hfil : cat.functions.filter
        (fun x => x.id == rid && x.api_key_id == some key) = [f] :=
      filter_eq_singleton_of_unique (fun x => x.id) rid hF
        (fun x hx => by
          simp only [Bool.and_eq_true, beq_iff_eq] at hx
          exact hx.1)
        hmem (by simp [hid, hown])
    simp [delete_function_by_id, hcol, hfil, scalar_one_or_none]
  have hF3 : (¬ ∃ f, f ∈ cat.functions ∧ f.id = rid ∧ f.api_key_id = some key) ∨
      cat.functions_has_api_key_id = false →
      delete_function_by_id cat rid key = .ok (false, cat) := by
    intro h
    rcases h with hno | hcolf
    · by_cases hcol : cat.functions_has_api_key_id
      · have hfil : cat.functions.filter
            (fun x => x.id == rid && x.api_key_id == some key) = [] := by
          rw [List.filter_eq_nil_iff]
          intro x hx hpx
          simp only [Bool.and_eq_true, beq_iff_eq] at hpx
          exact hno ⟨x, hx, hpx.1, hpx.2⟩
        simp [delete_function_by_id, hcol, hfil, scalar_one_or_none]
      · have hcol2 : cat.functions_has_api_key_id = false := by simpa using hcol
        simp [delete_function_by_id, hcol2]
    · simp [delete_function_by_id, hcolf]
  have hF4 : ∀ cat2, delete_function_by_id cat rid key = .ok (true, cat2) →
      ∃ f, f ∈ cat.functions ∧ f.id = rid ∧ f.api_key_id = some key ∧
        cat2 = { cat with functions := cat.functions.erase f } := by
    intro cat2 h
    by_cases hcol : cat.functions_has_api_key_id
    · cases hscal : scalar_one_or_none (cat.functions.filter
          (fun x => x.id == rid && x.api_key_id == some key)) with
      | error e => simp [delete_function_by_id, hcol, hscal] at h
      | ok o =>
        cases o with
        | none => simp [delete_function_by_id, hcol, hscal] at h
        | some f =>
          simp only [delete_function_by_id, hcol, Bool.not_true, hscal,
            Bool.false_eq_true, if_false] at h
          have hfil := scalar_one_or_none_ok_some hscal
          have hfmem : f ∈ cat.functions.filter
              (fun x => x.id == rid && x.api_key_id == some key) := by
            rw [hfil]; exact List.mem_cons_self f []
          obtain ⟨hmem, hp⟩ := List.mem_filter.1 hfmem
          simp only [Bool.and_eq_true, beq_iff_eq] at hp
          refine ⟨f, hmem, hp.1, hp.2, ?_⟩
          rw [hcol]
          have := h
          simp at this
          exact this.symm
    · have hcol2 : cat.functions_has_api_key_id = false := by simpa using hcol
      simp [delete_function_by_id, hcol2] at h
  have hF1 : ∃ r, delete_function_by_id cat rid key = .ok r := by
    by_cases hcol : cat.functions_has_api_key_id
    · by_cases hex : ∃ f, f ∈ cat.functions ∧ f.id = rid ∧ f.api_key_id = some key
      · obtain ⟨f, hmem, hid, hown⟩ := hex
        exact ⟨_, hF2 f hmem hid hown hcol⟩
      · exact ⟨_, hF3 (Or.inl hex)⟩
    · exact ⟨_, hF3 (Or.inr (by simpa using hcol))⟩
  exact ⟨hA1, hA2, hA3, hA4, hF1, hF2, hF3, hF4⟩

/-- C8 (witness): deleting the owned app row 1 with its owner key 5 succeeds
and erases it; deleting a non-existent function row 7 returns false with the
catalog unchanged; deleting function row 2 with a non-owner key 6 returns
false with the catalog unchanged. -/
theorem delete_by_id_ownership_checked_witness :
    delete_app_by_id catD 1 5 =
      .ok (true, { catD with
        apps := catD.apps.erase (exApp 1 ("A") .PUBLIC true (some 5)) }) ∧
    delete_function_by_id catD 7 5 = .ok (false, catD) ∧
    delete_function_by_id catD 2 6 = .ok (false, catD) := by
  refine ⟨?_, ?_, ?_⟩
  · exact (delete_by_id_ownership_checked catD 1 5 (by decide) (by decide)).2.1
      (exApp 1 ("A") .PUBLIC true (some 5)) (by decide) (by decide)
      (by decide) (by decide)
  · exact (delete_by_id_ownership_checked catD 7 5 (by decide)
      (by decide)).2.2.2.2.2.2.1 (Or.inl (by decide))
  · exact (delete_by_id_ownership_checked catD 2 6 (by decide)
      (by decide)).2.2.2.2.2.2.1 (Or.inl (by decide))

theorem select_function_cons (f0 : Function) (fs : List Function)
    (lyzr : Uuid) (k : Uuid) :
    select_function_from_matches (f0 :: fs) lyzr (some k) =
      match (f0 :: fs).find? (fun x => x.api_key_id == some k) with
      | some f => some f
      | none =>
        match (f0 :: fs).find? (fun x => x.api_key_id == some lyzr) with
        | some f => some f
        | none => some f0 := by
  rfl

theorem select_function_spec (l : List Function) (lyzr : Uuid) (k : Uuid) :
    (select_function_from_matches l lyzr (some k) = none ↔ l = []) ∧
    (∀ f, l.find? (fun x => x.api_key_id == some k) = some f →
      select_function_from_matches l lyzr (some k) = some f) ∧
    (l.find? (fun x => x.api_key_id == some k) = none →
      ∀ f, l.find? (fun x => x.api_key_id == some lyzr) = some f →
        select_function_from_matches l lyzr (some k) = some f) ∧
    (l.find? (fun x => x.api_key_id == some k) = none →
      l.find? (fun x => x.api_key_id == some lyzr) = none →
      select_function_from_matches l lyzr (some k) = l.head?) := by
  cases l with
  | nil =>
    refine ⟨by simp [select_function_from_matches], ?_, ?_, ?_⟩
    · intro f h
      simp at h
    · intro _ f h
      simp at h
    · intro _ _
      rfl
  | cons f0 fs =>
    refine ⟨?_, ?_, ?_, ?_⟩
    · rw [select_function_cons]
      cases hfc : (f0 :: fs).find? (fun x => x.api_key_id == some k) with
      | some f => simp
      | none =>
        cases hfl : (f0 :: fs).find? (fun x => x.api_key_id == some lyzr) with
        | some f => simp
        | none => simp
    · intro f h
      rw [select_function_cons, h]
    · intro h f h2
      rw [select_function_cons, h, h2]
    · intro h1 h2
      rw [select_function_cons, h1, h2]
      rfl

/-- C2: the selection step of `get_function` is a pure function of the fetched
candidate list: with a supplied owner key, the result is `None` exactly when
the candidate list is empty; it is the first caller-owned candidate when one
exists; otherwise the first candidate owned by the platform key
`LYZR_API_KEY_ID_DB` when one exists; otherwise the first candidate in the
store's stable order. -/
theorem get_function_three_tier_fallback (cat : Catalog) (fname : String)
    (public_only active_only : Bool) (k : Uuid) :
    (get_function cat fname public_only active_only (some k) = none ↔
      get_function_candidates cat fname public_only active_only = []) ∧
    (∀ f, (get_function_candidates cat fname public_only active_only).find?
        (fun x => x.api_key_id == some k) = some f →
      get_function cat fname public_only active_only (some k) = some f) ∧
    ((get_function_candidates cat fname public_only active_only).find?
        (fun x => x.api_key_id == some k) = none →
      ∀ f, (get_function_candidates cat fname public_only active_only).find?
          (fun x => x.api_key_id == some cat.LYZR_API_KEY_ID_DB) = some f →
        get_function cat fname public_only active_only (some k) = some f) ∧
    ((get_function_candidates cat fname public_only active_only).find?
        (fun x => x.api_key_id == some k) = none →
      (get_function_candidates cat fname public_only active_only).find?
          (fun x => x.api_key_id == some cat.LYZR_API_KEY_ID_DB) = none →
      get_function cat fname public_only active_only (some k) =
        (get_function_candidates cat fname public_only active_only).head?) ∧
    get_function cat fname public_only active_only (some k) =
      select_function_from_matches
        (get_function_candidates cat fname public_only active_only)
        cat.LYZR_API_KEY_ID_DB (some k) := by
  have h := select_function_spec
    (get_function_candidates cat fname public_only active_only)
    cat.LYZR_API_KEY_ID_DB k
  exact ⟨h.1, h.2.1, h.2.2.1, h.2.2.2, rfl⟩

/-- C2 (witness): among three same-named candidates owned by key 2, the
platform key 99 and NULL, a caller with key 2 gets their own row; a caller
with key 7 gets the platform-owned row; and on an empty candidate set the
result is `None`. -/
theorem get_function_three_tier_fallback_witness :
    get_function catF ("X") false false (some 2) =
      some (exFun 1 ("X") 10 .PUBLIC true (some 2)) ∧
    get_function catF ("X") false false (some 7) =
      some (exFun 2 ("X") 10 .PUBLIC true (some 99)) ∧
    get_function catF ("nope") false false (some 7) = none := by
  refine ⟨?_, ?_, ?_⟩
  · exact (get_function_three_tier_fallback catF ("X") false false 2).2.1
      (exFun 1 ("X") 10 .PUBLIC true (some 2)) (by decide)
  · exact (get_function_three_tier_fallback catF ("X") false false 7).2.2.1
      (by decide) (exFun 2 ("X") 10 .PUBLIC true (some 99)) (by decide)
  · exact (get_function_three_tier_fallback catF ("nope") false false 7).1.2
      (by decide)

theorem create_functions_loop_error {cat : Catalog} {k : Option Uuid} :
    ∀ (ups : List FunctionUpsert) (embs : List (List Rat)),
    (∃ u, u ∈ ups ∧ get_app_by_name_and_api_key_id cat
        (parse_app_name_from_function_name u.name) k = .ok none) →
    ∃ e, create_functions_loop cat k ups embs = .error e := by
  intro ups
  induction ups with
  | nil =>
    intro embs h
    rcases h with ⟨u, hu, _⟩
    simp at hu
  | cons u0 rest ih =>
    intro embs h
    rcases h with ⟨u, hu, hnone⟩
    rcases List.mem_cons.1 hu with rfl | hmem
    · simp only [create_functions_loop, hnone]
      exact ⟨_, rfl⟩
    · cases hres : get_app_by_name_and_api_key_id cat
          (parse_app_name_from_function_name u0.name) k with
      | error e =>
        simp only [create_functions_loop, hres]
        exact ⟨e, rfl⟩
      | ok o =>
        cases o with
        | none =>
          simp only [create_functions_loop, hres]
          exact ⟨_, rfl⟩
        | some app =>
          cases embs with
          | nil =>
            simp only [create_functions_loop, hres]
            exact ⟨.indexError, rfl⟩
          | cons e0 erest =>
            rcases ih erest ⟨u, hmem, hnone⟩ with ⟨err, herr⟩
            simp only [create_functions_loop, hres, herr]
            exact ⟨err, rfl⟩

/-- C3: if any element of a `create_functions` batch names an App that cannot
be resolved for the supplied owner key, the whole call raises, and whenever
the call raises the persisted functions table is exactly the one before the
call: rows are only staged before the final flush, which an exception
prevents, so no partial subset of the batch is ever written. -/
theorem create_functions_all_or_nothing (cat : Catalog)
    (ups : List FunctionUpsert) (embs : List (List Rat)) (k : Option Uuid) :
    ((∃ u, u ∈ ups ∧ get_app_by_name_and_api_key_id cat
        (parse_app_name_from_function_name u.name) k = .ok none) →
      ∃ e, (create_functions cat ups embs k).1 = .error e) ∧
    (∀ e, (create_functions cat ups embs k).1 = .error e →
      (create_functions cat ups embs k).2 = cat.functions) := by
  constructor
  · intro hex
    rcases create_functions_loop_error ups embs hex with ⟨e, he⟩
    exact ⟨e, by simp [create_functions, he]⟩
  · intro e he
    cases hloop : create_functions_loop cat k ups embs with
    | ok fns =>
      rw [create_functions, hloop] at he
      simp at he
    | error err =>
      rw [create_functions, hloop]

/-- C3 (witness): a two-element batch whose second function names the missing
app MISSING fails as a whole and persists nothing: the functions table stays
empty even though the first element's app APPA resolves. -/
theorem create_functions_all_or_nothing_witness :
    (∃ e, (create_functions catA [exUps ("APPA__f1"), exUps ("MISSING__f2")]
      [[], []] (some 5)).1 = .error e) ∧
    (create_functions catA [exUps ("APPA__f1"), exUps ("MISSING__f2")]
      [[], []] (some 5)).2 = catA.functions := by
  have h := create_functions_all_or_nothing catA
    [exUps ("APPA__f1"), exUps ("MISSING__f2")] [[], []] (some 5)
  have h1 := h.1 ⟨exUps ("MISSING__f2"), by decide, by decide⟩
  rcases h1 with ⟨e, he⟩
  exact ⟨⟨e, he⟩, h.2 e he⟩

theorem get_app_by_name_and_api_key_id_ok_some {cat : Catalog} {n : String}
    {k : Option Uuid} {a : App}
    (h : get_app_by_name_and_api_key_id cat n k = .ok (some a)) :
    a ∈ cat.apps ∧ a.name = n ∧ a.api_key_id = k := by
  unfold get_app_by_name_and_api_key_id at h
  split at h
  · simp at h
  · have hl := scalar_one_or_none_ok_some h
    have hmem : a ∈ cat.apps.filter
        (fun x => x.name == n && x.api_key_id == k) := by
      rw [hl]
      exact List.mem_cons_self a []
    obtain ⟨hm, hp⟩ := List.mem_filter.1 hmem
    simp only [Bool.and_eq_true, beq_iff_eq] at hp
    exact ⟨hm, hp.1, hp.2⟩

theorem create_functions_loop_ok {cat : Catalog} {k : Option Uuid} :
    ∀ (ups : List FunctionUpsert) (embs : List (List Rat))
      (fns : List Function),
    create_functions_loop cat k ups embs = .ok fns →
    ∀ f, f ∈ fns → ∃ app, app ∈ cat.apps ∧ f.app_id = app.id ∧
      app.name = parse_app_name_from_function_name f.name ∧
      app.api_key_id = k ∧ f.api_key_id = k := by
  intro ups
  induction ups with
  | nil =>
    intro embs fns h f hf
    simp only [create_functions_loop] at h
    cases h
    simp at hf
  | cons u0 rest ih =>
    intro embs fns h f hf
    cases hres : get_app_by_name_and_api_key_id cat
        (parse_app_name_from_function_name u0.name) k with
    | error e =>
      simp only [create_functions_loop, hres] at h
      exact Except.noConfusion h
    | ok o =>
      cases o with
      | none =>
        simp only [create_functions_loop, hres] at h
        exact Except.noConfusion h
      | some app =>
        cases embs with
        | nil =>
          simp only [create_functions_loop, hres] at h
          exact Except.noConfusion h
        | cons e0 erest =>
          cases hrec : create_functions_loop cat k rest erest with
          | error err =>
            simp only [create_functions_loop, hres, hrec] at h
            exact Except.noConfusion h
          | ok fns2 =>
            simp only [create_functions_loop, hres, hrec, Except.ok.injEq] at h
            subst h
            rcases List.mem_cons.1 hf with rfl | hf2
            · obtain ⟨hmem, hname, hkey⟩ :=
                get_app_by_name_and_api_key_id_ok_some hres
              exact ⟨app, hmem, rfl, hname, hkey, rfl⟩
            · exact ih erest fns2 hrec f hf2

/-- C9: the owning App name of every function in a `create_functions` batch is
the segment of the function name before the first `__` delimiter, and every
function the call successfully creates carries the owner key and references
an existing App, resolved for that key, whose name is exactly that prefix
segment of the function's name. -/
theorem create_functions_links_app_by_name (cat : Catalog)
    (ups : List FunctionUpsert) (embs : List (List Rat)) (k : Option Uuid)
    (fns : List Function)
    (hok : (create_functions cat ups embs k).1 = .ok fns) :
    (∀ f, f ∈ fns → ∃ app, app ∈ cat.apps ∧ f.app_id = app.id ∧
      app.name = parse_app_name_from_function_name f.name ∧
      app.api_key_id = k ∧ f.api_key_id = k) ∧
    parse_app_name_from_function_name ("ACI_TEST__HELLO_WORLD") =
      ("ACI_TEST") ∧
    parse_app_name_from_function_name ("GMAIL") = ("GMAIL") := by
  have hres : (create_functions cat ups embs k).1 =
      create_functions_loop cat k ups embs := by
    unfold create_functions
    cases create_functions_loop cat k ups embs <;> rfl
  have hloop : create_functions_loop cat k ups embs = .ok fns := by
    rw [← hres]
    exact hok
  exact ⟨create_functions_loop_ok ups embs fns hloop, by decide, by decide⟩

/-- C9 (witness): creating APPA__f1 under owner key 5 in a catalog whose app
APPA (id 10) is owned by key 5 yields a function linked to that app, whose
name is the prefix of the function name before the `__` delimiter. -/
theorem create_functions_links_app_by_name_witness :
    ∃ app, app ∈ catA.apps ∧
      (exFun 0 ("APPA__f1") 10 .PUBLIC true (some 5)).app_id = app.id ∧
      app.name = parse_app_name_from_function_name
        (exFun 0 ("APPA__f1") 10 .PUBLIC true (some 5)).name ∧
      app.api_key_id = some 5 ∧
      (exFun 0 ("APPA__f1") 10 .PUBLIC true (some 5)).api_key_id = some 5 := by
  have h := create_functions_links_app_by_name catA [exUps ("APPA__f1")] [[]]
    (some 5) [exFun 0 ("APPA__f1") 10 .PUBLIC true (some 5)] (by decide)
  exact h.1 (exFun 0 ("APPA__f1") 10 .PUBLIC true (some 5)) (by decide)

theorem mem_joined {cat : Catalog} {p : Function × App}
    (h : p ∈ joinedFunctionApp cat) :
    p.1 ∈ cat.functions ∧ p.2 ∈ cat.apps ∧ p.1.app_id = p.2.id := by
  unfold joinedFunctionApp at h
  rcases List.mem_flatMap.1 h with ⟨f, hf, hp⟩
  rcases List.mem_map.1 hp with ⟨a, ha, hpe⟩
  obtain ⟨ha2, hfa⟩ := List.mem_filter.1 ha
  cases hpe
  exact ⟨hf, ha2, by simpa using hfa⟩

theorem mem_of_mem_ite_filter {α : Type} {l : List α} {x : α} (c : Bool)
    (p : α → Bool) (h : x ∈ if c = true then l.filter p else l) : x ∈ l := by
  split at h
  · exact List.mem_of_mem_filter h
  · exact h

theorem mem_of_mem_ite_filter2 {α : Type} {l : List α} {x : α} (c : Bool)
    (p q : α → Bool) (h : x ∈ if c = true then (l.filter p).filter q else l) :
    x ∈ l ∧ (c = true → p x = true ∧ q x = true) := by
  split at h
  next hc =>
    obtain ⟨h1, hq⟩ := List.mem_filter.1 h
    obtain ⟨h2, hp⟩ := List.mem_filter.1 h1
    exact ⟨h2, fun _ => ⟨hp, hq⟩⟩
  next hc =>
    exact ⟨h, fun hcc => absurd hcc hc⟩

theorem mem_of_mem_match_names {α : Type} {l : List α} {x : α}
    (ns : Option (List String)) (p : List String → α → Bool)
    (h : x ∈ match ns with
      | none => l
      | some ns2 => l.filter (p ns2)) : x ∈ l := by
  cases ns with
  | none => exact h
  | some ns2 => exact List.mem_of_mem_filter h

theorem mem_of_mem_match_intent {α : Type} {l : List α} {x : α}
    (intent : Option (List Rat)) (key : List Rat → α → Rat)
    (h : x ∈ match intent with
      | none => l
      | some v => sortByKey (key v) l) : x ∈ l := by
  cases intent with
  | none => exact h
  | some v => exact (mem_sortByKey (key v) l x).1 h

theorem search_functions_mem {cat : Catalog} {po ao : Bool}
    {app_names function_names : Option (List String)}
    {intent : Option (List Rat)} {limit offset : Nat}
    {dist : List Rat → List Rat → Rat} {excl : Bool} {f : Function}
    (h : f ∈ search_functions cat po ao app_names function_names intent limit
      offset dist excl) :
    ∃ a, a ∈ cat.apps ∧ f.app_id = a.id ∧
      (po = true → a.visibility = .PUBLIC ∧ f.visibility = .PUBLIC) ∧
      (ao = true → a.active = true ∧ f.active = true) := by
  simp only [search_functions] at h
  rcases List.mem_map.1 h with ⟨p, hp, hpf⟩
  replace hp := List.mem_of_mem_drop (List.mem_of_mem_take hp)
  replace hp := mem_of_mem_match_intent intent
    (fun (v : List Rat) (q : Function × App) => dist q.1.embedding v) hp
  replace hp := mem_of_mem_ite_filter excl _ hp
  replace hp := mem_of_mem_match_names app_names _ hp
  replace hp := mem_of_mem_match_names function_names _ hp
  obtain ⟨hp, hpo⟩ := mem_of_mem_ite_filter2 po _ _ hp
  obtain ⟨hp, hao⟩ := mem_of_mem_ite_filter2 ao _ _ hp
  obtain ⟨hfmem, hamem, hlink⟩ := mem_joined hp
  subst hpf
  refine ⟨p.2, hamem, hlink, ?_, ?_⟩
  · intro hc
    obtain ⟨h1, h2⟩ := hpo hc
    exact ⟨by simpa using h1, by simpa using h2⟩
  · intro hc
    obtain ⟨h1, h2⟩ := hao hc
    exact ⟨h1, h2⟩

theorem get_functions_mem {cat : Catalog} {po ao : Bool}
    {app_names : Option (List String)} {limit offset : Nat} {f : Function}
    (h : f ∈ get_functions cat po ao app_names limit offset) :
    ∃ a, a ∈ cat.apps ∧ f.app_id = a.id ∧
      (po = true → a.visibility = .PUBLIC ∧ f.visibility = .PUBLIC) ∧
      (ao = true → a.active = true ∧ f.active = true) := by
  simp only [get_functions] at h
  rcases List.mem_map.1 h with ⟨p, hp, hpf⟩
  replace hp := List.mem_of_mem_drop (List.mem_of_mem_take hp)
  replace hp := (mem_sortByKey (fun q : Function × App => q.1.name) _ p).1 hp
  obtain ⟨hp, hao⟩ := mem_of_mem_ite_filter2 ao _ _ hp
  obtain ⟨hp, hpo⟩ := mem_of_mem_ite_filter2 po _ _ hp
  replace hp := mem_of_mem_match_names app_names _ hp
  obtain ⟨hfmem, hamem, hlink⟩ := mem_joined hp
  subst hpf
  refine ⟨p.2, hamem, hlink, ?_, ?_⟩
  · intro hc
    obtain ⟨h1, h2⟩ := hpo hc
    exact ⟨by simpa using h1, by simpa using h2⟩
  · intro hc
    obtain ⟨h1, h2⟩ := hao hc
    exact ⟨h1, h2⟩

/-- C4: under `public_only = true` every function returned by
`search_functions` or `get_functions` belongs (via the join on `app_id`) to a
PUBLIC app and is itself PUBLIC, and under `active_only = true` both the
owning app and the function are active; consequently, with app ids unique, a
function whose owning app is PRIVATE never appears in a `public_only = true`
search, even when the function itself is PUBLIC. -/
theorem function_visibility_join_correct (cat : Catalog)
    (public_only active_only : Bool)
    (app_names function_names : Option (List String))
    (intent : Option (List Rat)) (limit offset : Nat)
    (dist : List Rat → List Rat → Rat) (excl : Bool) :
    (∀ f, f ∈ search_functions cat true active_only app_names function_names
        intent limit offset dist excl →
      ∃ a, a ∈ cat.apps ∧ f.app_id = a.id ∧ a.visibility = .PUBLIC ∧
        f.visibility = .PUBLIC) ∧
    (∀ f, f ∈ search_functions cat public_only true app_names function_names
        intent limit offset dist excl →
      ∃ a, a ∈ cat.apps ∧ f.app_id = a.id ∧ a.active = true ∧
        f.active = true) ∧
    (∀ f, f ∈ get_functions cat true active_only app_names limit offset →
      ∃ a, a ∈ cat.apps ∧ f.app_id = a.id ∧ a.visibility = .PUBLIC ∧
        f.visibility = .PUBLIC) ∧
    (∀ f, f ∈ get_functions cat public_only true app_names limit offset →
      ∃ a, a ∈ cat.apps ∧ f.app_id = a.id ∧ a.active = true ∧
        f.active = true) ∧
    (∀ f a, a ∈ cat.apps → f.app_id = a.id → a.visibility = .PRIVATE →
      (cat.apps.map (fun x => x.id)).Nodup →
      f ∉ search_functions cat true active_only app_names function_names
        intent limit offset dist excl) := by
  refine ⟨?_, ?_, ?_, ?_, ?_⟩
  · intro f h
    obtain ⟨a, hamem, hlink, hpo, _⟩ := search_functions_mem h
    exact ⟨a, hamem, hlink, (hpo rfl).1, (hpo rfl).2⟩
  · intro f h
    obtain ⟨a, hamem, hlink, _, hao⟩ := search_functions_mem h
    exact ⟨a, hamem, hlink, (hao rfl).1, (hao rfl).2⟩
  · intro f h
    obtain ⟨a, hamem, hlink, hpo, _⟩ := get_functions_mem h
    exact ⟨a, hamem, hlink, (hpo rfl).1, (hpo rfl).2⟩
  · intro f h
    obtain ⟨a, hamem, hlink, _, hao⟩ := get_functions_mem h
    exact ⟨a, hamem, hlink, (hao rfl).1, (hao rfl).2⟩
  · intro f a hamem hlink hpriv hnodup h
    obtain ⟨a2, hamem2, hlink2, hpo, _⟩ := search_functions_mem h
    have hions := List.inj_on_of_nodup_map hnodup
    have : a = a2 := hions hamem hamem2 (by rw [← hlink, ← hlink2])
    rw [this, (hpo rfl).1] at hpriv
    exact Visibility.noConfusion hpriv

/-- C4 (witness): in a catalog with a PUBLIC app (id 1) and a PRIVATE app
(id 2), each owning one PUBLIC active function, a `public_only = true` search
returns the function of the public app together with its PUBLIC owning app,
and the PUBLIC function of the PRIVATE app does not appear at all. -/
theorem function_visibility_join_correct_witness :
    (∃ a, a ∈ catV.apps ∧
      (exFun 10 ("PA__f") 1 .PUBLIC true none).app_id = a.id ∧
      a.visibility = .PUBLIC ∧
      (exFun 10 ("PA__f") 1 .PUBLIC true none).visibility = .PUBLIC) ∧
    (exFun 11 ("PRA__g") 2 .PUBLIC true none) ∉
      search_functions catV true false none none none 10 0
        (fun _ _ => 0) true := by
  have h := function_visibility_join_correct catV false false none none none
    10 0 (fun _ _ => 0) true
  constructor
  · exact h.1 (exFun 10 ("PA__f") 1 .PUBLIC true none) (by decide)
  · exact h.2.2.2.2 (exFun 11 ("PRA__g") 2 .PUBLIC true none)
      (exApp 2 ("PRA") .PRIVATE true none) (by decide) (by decide)
      (by decide) (by decide)

end Aci
